import Mathlib

/-!
Verification development for the Clarity contract verification action.

The TypeScript sources are embedded shallowly: lines are lists of
characters, the two regular expressions are run by a small backtracking
matcher with JavaScript ordering (leftmost start, greedy classes try the
longest repetition first, the lazy dot tries the shortest first), and the
index-mutating loops become structural recursions over the line list
(with an explicit fuel argument where the loop skips ahead).
-/

namespace Clara

/-! ## Character classes and basic string utilities -/

/-- The JavaScript `\s` class (also the character set removed by
`String.prototype.trim`): whitespace and line terminators. -/
def isRegexWs (c : Char) : Bool :=
  c == ' ' || c == '\t' || c == '\n' || c == '\r' || c == '\x0b' || c == '\x0c' ||
  c == '\u00A0' || c == '\u1680' ||
  (decide ('\u2000' ≤ c) && decide (c ≤ '\u200A')) ||
  c == '\u2028' || c == '\u2029' || c == '\u202F' || c == '\u205F' ||
  c == '\u3000' || c == '\uFEFF'

/-- The JavaScript `\d` class. -/
def isDigitChar (c : Char) : Bool :=
  decide ('0' ≤ c) && decide (c ≤ '9')

/-- The JavaScript `.` class: any character except a line terminator. -/
def isDotChar (c : Char) : Bool :=
  !(c == '\n' || c == '\r' || c == '\u2028' || c == '\u2029')

/-- The JavaScript `\S` class. -/
def isNonWsChar (c : Char) : Bool := !isRegexWs c

/-- `String.prototype.trim` on a character list. -/
def trimChars (s : List Char) : List Char :=
  ((s.dropWhile isRegexWs).reverse.dropWhile isRegexWs).reverse

/-- `str.split("\n")`: split on every newline, keeping empty pieces
(`"".split("\n")` is `[""]`). -/
def splitLines : List Char → List (List Char)
  | [] => [[]]
  | c :: cs =>
    if c = '\n' then [] :: splitLines cs
    else
      match splitLines cs with
      | [] => [[c]]
      | l :: ls => (c :: l) :: ls

/-- Occurrence test underlying `String.prototype.includes`. -/
def containsSub : List Char → List Char → Bool
  | s, sub =>
    match s with
    | [] => sub.isEmpty
    | _ :: t => sub.isPrefixOf s || containsSub t sub

/-- `s.includes(sub)` from JavaScript. -/
def jsIncludes (s sub : String) : Bool :=
  containsSub s.data sub.data

/-- Value of `parseInt(s, 10)` on an all-digit string. -/
def digitsToNat (s : List Char) : Nat :=
  s.foldl (fun n c => n * 10 + (c.toNat - '0'.toNat)) 0

/-- `s.split(" ")[0]`: the segment before the first space. -/
def firstWord (s : List Char) : List Char :=
  s.takeWhile (fun c => c ≠ ' ')

/-! ## A small backtracking regex engine

The two regexes of the source are sequences of literals, one-or-more
character classes (greedy or lazy), and a literal alternation; two of the
class items capture. The matcher below tries possibilities in exactly the
JavaScript order, so its first success is the JavaScript match. -/

/-- One item of a regex sequence. -/
inductive RItem where
  | lit : List Char → RItem
  | plusGreedy : (Char → Bool) → RItem
  | plusLazy : (Char → Bool) → RItem
  | capPlusGreedy : (Char → Bool) → RItem
  | capAltLit : List (List Char) → RItem

/-- Try consuming `k, k-1, ..., 1` characters of `s` (greedy order),
feeding the remainder to the continuation. -/
def tryLenDown (s : List Char) (cont : List Char → Option α) : Nat → Option α
  | 0 => none
  | k + 1 =>
    match cont (s.drop (k + 1)) with
    | some r => some r
    | none => tryLenDown s cont k

/-- Greedy-order length search that also hands the consumed prefix
(the capture) to the continuation. -/
def tryCapLenDown (s : List Char) (cont : List Char → List Char → Option α) :
    Nat → Option α
  | 0 => none
  | k + 1 =>
    match cont (s.take (k + 1)) (s.drop (k + 1)) with
    | some r => some r
    | none => tryCapLenDown s cont k

/-- Lazy one-or-more of class `p`: consume one `p`-character, try the
continuation, and only on failure consume further. -/
def tryLazyPlus (p : Char → Bool) (cont : List Char → Option α) :
    List Char → Option α
  | [] => none
  | c :: cs =>
    if p c then
      match cont cs with
      | some r => some r
      | none => tryLazyPlus p cont cs
    else none

/-- Literal alternation, alternatives tried left to right; the matched
alternative is handed to the continuation as a capture. -/
def tryCapAlts (s : List Char) (cont : List Char → List Char → Option α) :
    List (List Char) → Option α
  | [] => none
  | a :: as =>
    match (if a.isPrefixOf s then cont a (s.drop a.length) else none) with
    | some r => some r
    | none => tryCapAlts s cont as

/-- Match a regex item sequence at the start of `s` (the match need not
reach the end). Returns the captured groups in order. -/
def matchItems : List RItem → List Char → Option (List (List Char))
  | [], _ => some []
  | RItem.lit t :: rest, s =>
    if t.isPrefixOf s then matchItems rest (s.drop t.length) else none
  | RItem.plusGreedy p :: rest, s =>
    tryLenDown s (fun s2 => matchItems rest s2) (s.takeWhile p).length
  | RItem.plusLazy p :: rest, s =>
    tryLazyPlus p (fun s2 => matchItems rest s2) s
  | RItem.capPlusGreedy p :: rest, s =>
    tryCapLenDown s (fun cap s2 => (matchItems rest s2).map (fun caps => cap :: caps))
      (s.takeWhile p).length
  | RItem.capAltLit alts :: rest, s =>
    tryCapAlts s (fun cap s2 => (matchItems rest s2).map (fun caps => cap :: caps)) alts

/-- Unanchored search: try each start index in turn (also the end-of-string
position), as `String.prototype.match` does. Returns the match index and
the captures of the first (leftmost) match. -/
def searchMatchAux (items : List RItem) : List Char → Nat → Option (Nat × List (List Char))
  | [], i => (matchItems items []).map (fun caps => (i, caps))
  | c :: cs, i =>
    match matchItems items (c :: cs) with
    | some caps => some (i, caps)
    | none => searchMatchAux items cs (i + 1)

/-- `line.match(re)` for a sequence regex: index and captures of the first match. -/
def searchMatch (items : List RItem) (s : List Char) : Option (Nat × List (List Char)) :=
  searchMatchAux items s 0

/-! ## ESBMC output parsing (`src/esbmc/runner.ts`)

`parseFailingFunctions` walks the output lines with a mutable index and
an in-counterexample flag; here the index-driven loop is a recursion over
the remaining lines, with a fuel argument bounding the recursion depth
(the processed list shrinks at every step, so `length + 1` fuel is never
exhausted). -/

/-- The regex
`State\s+\d+\s+file\s+.+?\s+line\s+(\d+)\s+function\s+(\S+)\s+thread\s+\d+`. -/
def stateLinePattern : List RItem :=
  [ RItem.lit "State".data, RItem.plusGreedy isRegexWs, RItem.plusGreedy isDigitChar,
    RItem.plusGreedy isRegexWs, RItem.lit "file".data, RItem.plusGreedy isRegexWs,
    RItem.plusLazy isDotChar, RItem.plusGreedy isRegexWs,
    RItem.lit "line".data, RItem.plusGreedy isRegexWs, RItem.capPlusGreedy isDigitChar,
    RItem.plusGreedy isRegexWs, RItem.lit "function".data, RItem.plusGreedy isRegexWs,
    RItem.capPlusGreedy isNonWsChar, RItem.plusGreedy isRegexWs,
    RItem.lit "thread".data, RItem.plusGreedy isRegexWs, RItem.plusGreedy isDigitChar ]

/-- `line.match(stateLineRegex)` plus the `parseInt`/group extraction done
at the use site: line number and function name of a state line. -/
def matchStateLine (line : List Char) : Option (Nat × List Char) :=
  match searchMatch stateLinePattern line with
  | some (_, [g1, g2]) => some (digitsToNat g1, g2)
  | _ => none

/-- `isFillerLine` from `src/utils.ts`: the line trims to nothing. -/
def isFillerLine (line : List Char) : Bool :=
  trimChars line == []

/-- The `i++; while (i < lines.length && isFillerLine(nextLine)) ...` motif:
advance past filler lines, returning the first non-blank line's trimmed
content (`""` when the input runs out) together with the lines from the
found line onward. -/
def skipFillerLines : List (List Char) → List Char × List (List Char)
  | [] => ([], [])
  | l :: ls =>
    if isFillerLine (trimChars l) then skipFillerLines ls
    else (trimChars l, l :: ls)

/-- `FailureDetails` from `src/types.ts`. -/
structure FailureDetails where
  functionName : String
  lineNumber : Int
  title : String
  failingCode : String
deriving Repr, DecidableEq

/-- Loop body of `parseFailingFunctions`: remaining lines, the
`inCounterexampleBlock` flag, and the current function/line annotation
(`undefined` is `none`). -/
def parseLoopFuel : Nat → List (List Char) → Bool → Option (List Char) → Option Int →
    List FailureDetails
  | 0, _, _, _, _ => []
  | _ + 1, [], _, _, _ => []
  | fuel + 1, l :: ls, inBlock, fn, ln =>
    let line := trimChars l
    if line = "[Counterexample]".data then
      parseLoopFuel fuel ls true fn ln
    else if inBlock then
      match matchStateLine line with
      | some (n, g) => parseLoopFuel fuel ls true (some g) (some (n : Int))
      | none =>
        if List.isPrefixOf "Violated property:".data line then
          let p1 := skipFillerLines ls
          let title := if p1.1 = [] then "unknown-property".data else p1.1
          let p2 := skipFillerLines (p1.2.drop 1)
          let failingCode := if p2.1 = [] then "unknown-failing-code".data else p2.1
          { functionName := String.mk (fn.getD "unknown_function".data),
            lineNumber := ln.getD (-1),
            title := String.mk title,
            failingCode := String.mk failingCode } ::
            parseLoopFuel fuel (p2.2.drop 1) false fn ln
        else
          parseLoopFuel fuel ls inBlock fn ln
    else
      parseLoopFuel fuel ls inBlock fn ln

/-- `parseFailingFunctions` from `src/esbmc/runner.ts`. -/
def parseFailingFunctions (clarOutput : String) : List FailureDetails :=
  let lines := splitLines clarOutput.data
  parseLoopFuel (lines.length + 1) lines false none none

/-- `ESBMCResult` from `src/types.ts`. -/
structure ESBMCResult where
  verified : Bool
  failures : List FailureDetails
  rawOutput : String
  clarityFile : String
  functionName : String
deriving Repr, DecidableEq

/-- `parseESBMCOutput` from `src/esbmc/runner.ts`. -/
def parseESBMCOutput (output clarityFile functionName : String) : ESBMCResult :=
  if jsIncludes output "VERIFICATION SUCCESSFUL" then
    { verified := true, failures := [], rawOutput := output,
      clarityFile := clarityFile, functionName := functionName }
  else if jsIncludes output "VERIFICATION FAILED" then
    { verified := false, failures := parseFailingFunctions output, rawOutput := output,
      clarityFile := clarityFile, functionName := functionName }
  else
    { verified := false,
      failures := [{ functionName := functionName, lineNumber := -1,
                     title := "unknown-result",
                     failingCode := "ESBMC did not produce a clear verification result" }],
      rawOutput := output, clarityFile := clarityFile, functionName := functionName }

/-! ## Clarity function parsing and change detection (`src/git/functions.ts`) -/

/-- `ClarityFunction` from `src/types.ts` (the `type` field holds the
captured keyword exactly as the code stores it). -/
structure ClarityFunction where
  name : String
  type : String
  startLine : Nat
  endLine : Nat
  content : String
  file : String
deriving Repr, DecidableEq

/-- The regex `\(define-(public|private|read-only)\s+\(([^)]+)`. -/
def functionRegexPattern : List RItem :=
  [ RItem.lit "(define-".data,
    RItem.capAltLit ["public".data, "private".data, "read-only".data],
    RItem.plusGreedy isRegexWs, RItem.lit "(".data,
    RItem.capPlusGreedy (fun c => c ≠ ')') ]

/-- Net effect of one character scan: `+1` per `(`, `-1` per `)`. -/
def parenDelta (s : List Char) : Int :=
  s.foldl (fun d c => if c = '(' then d + 1 else if c = ')' then d - 1 else d) 0

/-- Sum of the paren deltas of a run of lines. -/
def parenSum (lines : List (List Char)) : Int :=
  (lines.map parenDelta).sum

/-- The in-progress function of `parseClarityFunctions` (`currentFunction`,
`openParens` and `functionContent` of the source loop). -/
structure PendingFn where
  type : List Char
  name : List Char
  startLine : Nat
  openParens : Int
  content : List Char
deriving Repr, DecidableEq

/-- Loop of `parseClarityFunctions`: scan lines, open a function at a
definition-header match, close it when the paren depth reaches zero at a
line end; an unterminated function is silently dropped at end of input. -/
def parseClarityAux (filePath : String) :
    List (List Char) → Nat → Option PendingFn → List ClarityFunction
  | [], _, _ => []
  | line :: rest, lineNo, none =>
    match searchMatch functionRegexPattern line with
    | some (idx, [g1, g2]) =>
      let op : Int := 1 + parenDelta (line.drop (idx + 1))
      if op = 0 then
        { name := String.mk (firstWord (trimChars g2)), type := String.mk g1,
          startLine := lineNo, endLine := lineNo,
          content := String.mk line, file := filePath } ::
          parseClarityAux filePath rest (lineNo + 1) none
      else
        parseClarityAux filePath rest (lineNo + 1)
          (some { type := g1, name := firstWord (trimChars g2),
                  startLine := lineNo, openParens := op, content := line })
    | _ => parseClarityAux filePath rest (lineNo + 1) none
  | line :: rest, lineNo, some pf =>
    let newContent := pf.content ++ '\n' :: line
    let op := pf.openParens + parenDelta line
    if op = 0 then
      { name := String.mk pf.name, type := String.mk pf.type,
        startLine := pf.startLine, endLine := lineNo,
        content := String.mk newContent, file := filePath } ::
        parseClarityAux filePath rest (lineNo + 1) none
    else
      parseClarityAux filePath rest (lineNo + 1)
        (some { pf with openParens := op, content := newContent })

/-- `parseClarityFunctions` from `src/git/functions.ts`. -/
def parseClarityFunctions (content : String) (filePath : String) : List ClarityFunction :=
  parseClarityAux filePath (splitLines content.data) 1 none

/-- The `changeType` union of `ChangedFunction`. -/
inductive ChangeType where
  | added
  | modified
  | deleted
deriving Repr, DecidableEq

/-- `ChangedFunction` from `src/types.ts`: a `ClarityFunction` plus a
`changeType` (the spread `{...func, changeType}`). -/
structure ChangedFunction extends ClarityFunction where
  changeType : ChangeType
deriving Repr, DecidableEq

/-- The record built by `{...func, changeType: t}`. -/
def mkChanged (f : ClarityFunction) (t : ChangeType) : ChangedFunction :=
  { toClarityFunction := f, changeType := t }

/-- Body of the base-function loop of `compareAndIdentifyChanges`: what one
base function contributes to the output. -/
def baseStep (headFunctions : List ClarityFunction) (baseFunc : ClarityFunction) :
    Option ChangedFunction :=
  match headFunctions.find? (fun f => f.name == baseFunc.name) with
  | none => some (mkChanged baseFunc ChangeType.deleted)
  | some headFunc =>
    if baseFunc.content ≠ headFunc.content then some (mkChanged headFunc ChangeType.modified)
    else none

/-- Body of the head-function loop of `compareAndIdentifyChanges`: what one
head function contributes to the output. -/
def addStep (baseFunctions : List ClarityFunction) (headFunc : ClarityFunction) :
    Option ChangedFunction :=
  match baseFunctions.find? (fun f => f.name == headFunc.name) with
  | none => some (mkChanged headFunc ChangeType.added)
  | some _ => none

/-- `compareAndIdentifyChanges` from `src/git/functions.ts`. -/
def compareAndIdentifyChanges (baseFunctions headFunctions : List ClarityFunction) :
    List ChangedFunction :=
  baseFunctions.filterMap (baseStep headFunctions) ++
    headFunctions.filterMap (addStep baseFunctions)

/-- Per-file core of `detectChangedFunctions` from `src/git/functions.ts`:
`getFileContent` yields `""` for an unavailable revision, and the loop body
branches on the JavaScript truthiness of the two contents. -/
def detectChangesForFile (baseContent headContent file : String) : List ChangedFunction :=
  if baseContent = "" then
    (parseClarityFunctions headContent file).map (fun func => mkChanged func ChangeType.added)
  else if headContent = "" then
    (parseClarityFunctions baseContent file).map (fun func => mkChanged func ChangeType.deleted)
  else
    compareAndIdentifyChanges (parseClarityFunctions baseContent file)
      (parseClarityFunctions headContent file)

/-! ## SARIF report generation (`src/sarif/generator.ts`) -/

/-- The `region` part of a SARIF physical location. -/
structure SARIFRegion where
  startLine : Int
  startColumn : Int
deriving Repr, DecidableEq

/-- One entry of a SARIF result's `locations` array. -/
structure SARIFPhysicalLocation where
  uri : String
  region : SARIFRegion
deriving Repr, DecidableEq

/-- `SARIFResult` from `src/types.ts` (message text inlined). -/
structure SARIFResult where
  ruleId : String
  message : String
  locations : List SARIFPhysicalLocation
deriving Repr, DecidableEq

/-- `mapTitleToRuleId` from `src/sarif/generator.ts`: closed title table
with a catch-all default. -/
def mapTitleToRuleId (title : String) : String :=
  if title = "assertion" then "clarity-verify-assertion"
  else if title = "arithmetic overflow" then "clarity-verify-overflow"
  else if title = "arithmetic underflow" then "clarity-verify-underflow"
  else if title = "division by zero" then "clarity-verify-division-by-zero"
  else if title = "execution-error" then "clarity-verify-execution-error"
  else "clarity-verify-unknown-error"

/-- The SARIF result pushed by `convertToSARIFResults` for one failure of
one non-verified result. -/
def failureToSARIFResult (result : ESBMCResult) (failure : FailureDetails) : SARIFResult :=
  { ruleId := mapTitleToRuleId failure.title,
    message := "Verification failed in function \x27" ++ failure.functionName ++
      "\x27: " ++ failure.failingCode,
    locations := [{ uri := result.clarityFile,
                    region := { startLine := if failure.lineNumber > 0 then failure.lineNumber else 1,
                                startColumn := 1 } }] }

/-- `convertToSARIFResults` from `src/sarif/generator.ts`. -/
def convertToSARIFResults (esbmcResults : List ESBMCResult) : List SARIFResult :=
  esbmcResults.flatMap fun result =>
    if result.verified then [] else result.failures.map (failureToSARIFResult result)

/-- Number of (trimmed) `[Counterexample]` marker lines. -/
def countMarkers (lines : List (List Char)) : Nat :=
  lines.countP (fun l => trimChars l == "[Counterexample]".data)

/-- One observable action of the `parseFailingFunctions` loop: processing a
`State ...` annotation line (overwriting the current annotation), or
emitting a record with the captured title and failing-code texts. -/
inductive ParseEvent where
  | note (n : Nat) (g : List Char)
  | emit (title failingCode : List Char)
deriving Repr, DecidableEq

/-- The loop of `parseFailingFunctions` with its control flow unchanged,
recording the annotation updates and record emissions it performs, in
processing order (same branching as `parseLoopFuel`, which is proved to be
its annotation-reconstruction below). -/
def parseTraceFuel : Nat → List (List Char) → Bool → List ParseEvent
  | 0, _, _ => []
  | _ + 1, [], _ => []
  | fuel + 1, l :: ls, inBlock =>
    let line := trimChars l
    if line = "[Counterexample]".data then
      parseTraceFuel fuel ls true
    else if inBlock then
      match matchStateLine line with
      | some (n, g) => ParseEvent.note n g :: parseTraceFuel fuel ls true
      | none =>
        if List.isPrefixOf "Violated property:".data line then
          let p1 := skipFillerLines ls
          let title := if p1.1 = [] then "unknown-property".data else p1.1
          let p2 := skipFillerLines (p1.2.drop 1)
          let failingCode := if p2.1 = [] then "unknown-failing-code".data else p2.1
          ParseEvent.emit title failingCode :: parseTraceFuel fuel (p2.2.drop 1) false
        else
          parseTraceFuel fuel ls inBlock
    else
      parseTraceFuel fuel ls inBlock

/-- The event trace of the output parser on a raw output. -/
def parseTrace (clarOutput : String) : List ParseEvent :=
  parseTraceFuel ((splitLines clarOutput.data).length + 1) (splitLines clarOutput.data)
    false

/-- Rebuild the failure records from an event trace: the current annotation
is the most recently processed `note` (never reset by an emission), and each
`emit` produces a record from the annotation current at that point —
`unknown_function`/`-1` when no `note` has been processed yet. -/
def annotatedRecords : List ParseEvent → Option (Nat × List Char) → List FailureDetails
  | [], _ => []
  | ParseEvent.note n g :: es, _ => annotatedRecords es (some (n, g))
  | ParseEvent.emit t c :: es, cur =>
    { functionName := String.mk ((cur.map Prod.snd).getD "unknown_function".data),
      lineNumber := (cur.map (fun p => (p.1 : Int))).getD (-1),
      title := String.mk t, failingCode := String.mk c } :: annotatedRecords es cur

/-- The most recent annotation processed before the `j`-th emission of an
event trace: scan the events remembering the last `note`, stopping at the
`j`-th `emit` (the accumulator holds the annotation current at entry). -/
def lastNoteBeforeEmit : List ParseEvent → Nat → Option (Nat × List Char) →
    Option (Nat × List Char)
  | [], _, acc => acc
  | ParseEvent.note n g :: es, j, _ => lastNoteBeforeEmit es j (some (n, g))
  | ParseEvent.emit _ _ :: _, 0, acc => acc
  | ParseEvent.emit _ _ :: es, j + 1, acc => lastNoteBeforeEmit es j acc

/-! ## Helper lemmas -/

theorem parseLoopFuel_nil : ∀ (fuel : Nat) (b : Bool) (fn : Option (List Char)) (ln : Option Int),
    parseLoopFuel fuel [] b fn ln = []
  | 0, _, _, _ => rfl
  | _ + 1, _, _, _ => rfl

theorem skipFillerLines_suffix : ∀ ls : List (List Char), (skipFillerLines ls).2 <:+ ls
  | [] => List.nil_suffix
  | l :: ls => by
    rw [skipFillerLines]
    split
    · exact (skipFillerLines_suffix ls).trans (List.suffix_cons l ls)
    · exact List.suffix_refl _

theorem skipFillerLines_all_blank :
    ∀ bs : List (List Char), (∀ b ∈ bs, trimChars b = []) → skipFillerLines bs = ([], [])
  | [], _ => rfl
  | b :: bs, h => by
    have hb : trimChars b = [] := h b (List.mem_cons_self b bs)
    rw [skipFillerLines, hb]
    simpa [isFillerLine] using
      skipFillerLines_all_blank bs (fun x hx => h x (List.mem_cons_of_mem b hx))

theorem parseLoopFuel_marker_step (fuel : Nat) (l : List Char) (ls : List (List Char))
    (b : Bool) (fn : Option (List Char)) (ln : Option Int)
    (hl : trimChars l = "[Counterexample]".data) :
    parseLoopFuel (fuel + 1) (l :: ls) b fn ln = parseLoopFuel fuel ls true fn ln := by
  rw [parseLoopFuel]
  simp [hl]

theorem parseLoopFuel_violated_blank (fuel : Nat) (v : List Char) (bs : List (List Char))
    (fn : Option (List Char)) (ln : Option Int)
    (hv : List.isPrefixOf "Violated property:".data (trimChars v) = true)
    (hstate : matchStateLine (trimChars v) = none)
    (hbs : ∀ b ∈ bs, trimChars b = []) :
    parseLoopFuel (fuel + 1) (v :: bs) true fn ln =
      [{ functionName := String.mk (fn.getD "unknown_function".data),
         lineNumber := ln.getD (-1),
         title := "unknown-property", failingCode := "unknown-failing-code" }] := by
  have hnm : ¬ trimChars v = "[Counterexample]".data := by
    intro h
    rw [h] at hv
    exact absurd hv (by decide)
  rw [parseLoopFuel]
  simp only [hnm, if_false, if_true, hstate, hv, skipFillerLines_all_blank bs hbs,
    ite_true, ite_false]
  simp [skipFillerLines, parseLoopFuel_nil]

theorem emitted_rest_suffix (ls : List (List Char)) :
    ((skipFillerLines (skipFillerLines ls).2.tail).2.tail : List (List Char)) <:+ ls := by
  have h1 : (skipFillerLines ls).2 <:+ ls := skipFillerLines_suffix ls
  have h2 : (skipFillerLines ls).2.tail <:+ (skipFillerLines ls).2 := List.tail_suffix _
  have h3 := skipFillerLines_suffix (skipFillerLines ls).2.tail
  have h4 : (skipFillerLines (skipFillerLines ls).2.tail).2.tail <:+
      (skipFillerLines (skipFillerLines ls).2.tail).2 := List.tail_suffix _
  exact h4.trans (h3.trans (h2.trans h1))

theorem countMarkers_le_of_suffix {l₁ l₂ : List (List Char)} (h : l₁ <:+ l₂) :
    countMarkers l₁ ≤ countMarkers l₂ :=
  List.Sublist.countP_le _ h.sublist

theorem parseLoopFuel_length_le :
    ∀ (fuel : Nat) (lines : List (List Char)) (b : Bool) (fn : Option (List Char))
      (ln : Option Int),
      (parseLoopFuel fuel lines b fn ln).length ≤
        countMarkers lines + (if b then 1 else 0) := by
  intro fuel
  induction fuel with
  | zero => intro lines b fn ln; simp [parseLoopFuel]
  | succ fuel ih =>
    intro lines b fn ln
    cases lines with
    | nil => simp [parseLoopFuel]
    | cons l ls =>
      rw [parseLoopFuel]
      by_cases hmark : trimChars l = "[Counterexample]".data
      · have hc : countMarkers (l :: ls) = countMarkers ls + 1 := by
          simp [countMarkers, List.countP_cons, hmark]
        have := ih ls true fn ln
        simp only [hmark, if_true, ite_true, hc]
        simp only [if_true] at this
        omega
      · have hc : countMarkers (l :: ls) = countMarkers ls := by
          simp [countMarkers, List.countP_cons, hmark]
        simp only [hmark, if_false, ite_false]
        cases b with
        | false =>
          have := ih ls false fn ln
          simp only [Bool.false_eq_true, if_false, ite_false] at this ⊢
          omega
        | true =>
          simp only [if_true, ite_true]
          cases hms : matchStateLine (trimChars l) with
          | some p =>
            obtain ⟨n, g⟩ := p
            dsimp only
            have := ih ls true (some g) (some (n : Int))
            simp only [if_true] at this
            rw [hc]
            omega
          | none =>
            dsimp only
            by_cases hviol :
                List.isPrefixOf "Violated property:".data (trimChars l) = true
            · rw [if_pos hviol]
              have hrest := emitted_rest_suffix ls
              have := ih ((skipFillerLines (skipFillerLines ls).2.tail).2.tail) false fn ln
              have hcm := countMarkers_le_of_suffix hrest
              simp only [Bool.false_eq_true, if_false, ite_false] at this
              simp only [List.length_cons, List.drop_one, List.tail_drop] at this ⊢
              rw [hc]
              omega
            · rw [if_neg hviol]
              have := ih ls true fn ln
              simp only [if_true] at this
              rw [hc]
              omega

theorem parseLoopFuel_eq_annotated :
    ∀ (fuel : Nat) (lines : List (List Char)) (b : Bool) (cur : Option (Nat × List Char)),
      parseLoopFuel fuel lines b (cur.map Prod.snd) (cur.map (fun p => (p.1 : Int))) =
        annotatedRecords (parseTraceFuel fuel lines b) cur := by
  intro fuel
  induction fuel with
  | zero => intro lines b cur; rfl
  | succ fuel ih =>
    intro lines b cur
    cases lines with
    | nil => rfl
    | cons l ls =>
      rw [parseLoopFuel, parseTraceFuel]
      by_cases hmark : trimChars l = "[Counterexample]".data
      · rw [if_pos hmark, if_pos hmark]
        exact ih ls true cur
      · rw [if_neg hmark, if_neg hmark]
        cases b with
        | false =>
          dsimp only [Bool.false_eq_true, if_false]
          exact ih ls false cur
        | true =>
          dsimp only
          cases hms : matchStateLine (trimChars l) with
          | some p =>
            obtain ⟨n, g⟩ := p
            dsimp only
            simp only [annotatedRecords]
            simpa using ih ls true (some (n, g))
          | none =>
            dsimp only
            by_cases hviol :
                List.isPrefixOf "Violated property:".data (trimChars l) = true
            · rw [if_pos hviol, if_pos hviol]
              simp only [annotatedRecords, if_true]
              rw [← ih _ false cur]
            · rw [if_neg hviol, if_neg hviol]
              exact ih ls true cur

theorem annotatedRecords_nth :
    ∀ (evs : List ParseEvent) (cur : Option (Nat × List Char)) (j : Nat)
      (r : FailureDetails), (annotatedRecords evs cur)[j]? = some r →
      (lastNoteBeforeEmit evs j cur = none ∧ r.functionName = "unknown_function" ∧
        r.lineNumber = -1) ∨
      ∃ n g, lastNoteBeforeEmit evs j cur = some (n, g) ∧
        r.functionName = String.mk g ∧ r.lineNumber = (n : Int) := by
  intro evs
  induction evs with
  | nil => intro cur j r hr; simp [annotatedRecords] at hr
  | cons e es ih =>
    intro cur j r hr
    cases e with
    | note n g =>
      rw [annotatedRecords] at hr
      rw [lastNoteBeforeEmit]
      exact ih (some (n, g)) j r hr
    | emit t c =>
      rw [annotatedRecords] at hr
      cases j with
      | zero =>
        rw [List.getElem?_cons_zero] at hr
        rw [lastNoteBeforeEmit]
        cases cur with
        | none =>
          obtain rfl := Option.some.inj hr
          exact Or.inl ⟨rfl, rfl, rfl⟩
        | some p =>
          obtain rfl := Option.some.inj hr
          exact Or.inr ⟨p.1, p.2, rfl, rfl, rfl⟩
      | succ j =>
        rw [List.getElem?_cons_succ] at hr
        rw [lastNoteBeforeEmit]
        exact ih cur j r hr

theorem parseTraceFuel_note_from_line :
    ∀ (fuel : Nat) (lines : List (List Char)) (b : Bool) (n : Nat) (g : List Char),
      ParseEvent.note n g ∈ parseTraceFuel fuel lines b →
      ∃ l ∈ lines, matchStateLine (trimChars l) = some (n, g) := by
  intro fuel
  induction fuel with
  | zero => intro lines b n g hn; simp [parseTraceFuel] at hn
  | succ fuel ih =>
    intro lines b n g hn
    cases lines with
    | nil => simp [parseTraceFuel] at hn
    | cons l ls =>
      rw [parseTraceFuel] at hn
      by_cases hmark : trimChars l = "[Counterexample]".data
      · rw [if_pos hmark] at hn
        rcases ih ls true n g hn with ⟨l', hl', hm⟩
        exact ⟨l', List.mem_cons_of_mem l hl', hm⟩
      · rw [if_neg hmark] at hn
        cases b with
        | false =>
          dsimp only [Bool.false_eq_true, if_false] at hn
          rcases ih ls false n g hn with ⟨l', hl', hm⟩
          exact ⟨l', List.mem_cons_of_mem l hl', hm⟩
        | true =>
          dsimp only at hn
          cases hms : matchStateLine (trimChars l) with
          | some p =>
            obtain ⟨n', g'⟩ := p
            rw [hms] at hn
            dsimp only at hn
            rcases List.mem_cons.mp hn with heq | hn
            · injection heq with h1 h2
              subst h1
              subst h2
              exact ⟨l, List.mem_cons_self l ls, hms⟩
            · rcases ih ls true n g hn with ⟨l', hl', hm⟩
              exact ⟨l', List.mem_cons_of_mem l hl', hm⟩
          | none =>
            rw [hms] at hn
            dsimp only at hn
            by_cases hviol :
                List.isPrefixOf "Violated property:".data (trimChars l) = true
            · rw [if_pos hviol] at hn
              rcases List.mem_cons.mp hn with heq | hn
              · exact absurd heq (by simp)
              · rcases ih _ false n g hn with ⟨l', hl', hm⟩
                refine ⟨l', ?_, hm⟩
                exact List.mem_cons_of_mem l
                  ((emitted_rest_suffix ls).sublist.subset (by simpa using hl'))
            · rw [if_neg hviol] at hn
              rcases ih ls true n g hn with ⟨l', hl', hm⟩
              exact ⟨l', List.mem_cons_of_mem l hl', hm⟩

theorem mem_compare_iff (base head : List ClarityFunction) (r : ChangedFunction) :
    r ∈ compareAndIdentifyChanges base head ↔
      (∃ b ∈ base, baseStep head b = some r) ∨ ∃ h ∈ head, addStep base h = some r := by
  simp [compareAndIdentifyChanges, List.mem_append, List.mem_filterMap]

theorem baseStep_eq_some_iff {head : List ClarityFunction} {b : ClarityFunction}
    {r : ChangedFunction} :
    baseStep head b = some r ↔
      (head.find? (fun f => f.name == b.name) = none ∧
        r = mkChanged b ChangeType.deleted) ∨
      ∃ hf, head.find? (fun f => f.name == b.name) = some hf ∧
        b.content ≠ hf.content ∧ r = mkChanged hf ChangeType.modified := by
  unfold baseStep
  cases hfind : head.find? (fun f => f.name == b.name) with
  | none => simp [eq_comm]
  | some hf =>
    by_cases hc : b.content ≠ hf.content
    · simp [hc, eq_comm]
    · simp [hc, eq_comm]

theorem addStep_eq_some_iff {base : List ClarityFunction} {h : ClarityFunction}
    {r : ChangedFunction} :
    addStep base h = some r ↔
      base.find? (fun f => f.name == h.name) = none ∧ r = mkChanged h ChangeType.added := by
  unfold addStep
  cases hfind : base.find? (fun f => f.name == h.name) with
  | none => simp [eq_comm]
  | some hf => simp

theorem find?_name_eq_some_of_nodup :
    ∀ {l : List ClarityFunction}, (l.map ClarityFunction.name).Nodup →
      ∀ {f : ClarityFunction}, f ∈ l →
        l.find? (fun g => g.name == f.name) = some f := by
  intro l
  induction l with
  | nil => intro _ f hf; exact absurd hf (List.not_mem_nil f)
  | cons a t ih =>
    intro hnd f hf
    rw [List.map_cons, List.nodup_cons] at hnd
    rcases List.mem_cons.mp hf with rfl | hft
    · rw [List.find?_cons_of_pos _ (by simp)]
    · have hne : ¬ ((a.name == f.name) = true) := by
        simp only [beq_iff_eq]
        intro heq
        exact hnd.1 (heq ▸ List.mem_map_of_mem ClarityFunction.name hft)
      have hstep : List.find? (fun g => g.name == f.name) (a :: t) =
          List.find? (fun g => g.name == f.name) t := List.find?_cons_of_neg t hne
      rw [hstep]
      exact ih hnd.2 hft

theorem eq_of_name_eq_of_nodup {l : List ClarityFunction}
    (hl : (l.map ClarityFunction.name).Nodup) {f g : ClarityFunction}
    (hf : f ∈ l) (hg : g ∈ l) (h : f.name = g.name) : f = g := by
  have h1 := find?_name_eq_some_of_nodup hl hf
  have h2 := find?_name_eq_some_of_nodup hl hg
  rw [h] at h1
  rw [h1] at h2
  exact Option.some.inj h2

theorem parseClarityFunctions_empty (file : String) : parseClarityFunctions "" file = [] := rfl

/-! ## Claims -/

/-- C2: any raw output containing `VERIFICATION SUCCESSFUL` is classified
verified with an empty failures list, regardless of any other content. -/
theorem success_marker_forces_verified (output clarityFile functionName : String)
    (h : jsIncludes output "VERIFICATION SUCCESSFUL" = true) :
    parseESBMCOutput output clarityFile functionName =
      { verified := true, failures := [], rawOutput := output,
        clarityFile := clarityFile, functionName := functionName } := by
  rw [parseESBMCOutput, if_pos h]

/-- C2 witness: a string containing both markers (and the successful marker
last) still yields verified with no failures. -/
theorem success_marker_forces_verified_witness :
    parseESBMCOutput "VERIFICATION FAILED\nVERIFICATION SUCCESSFUL" "a.clar" "deposit" =
      { verified := true, failures := [],
        rawOutput := "VERIFICATION FAILED\nVERIFICATION SUCCESSFUL",
        clarityFile := "a.clar", functionName := "deposit" } :=
  success_marker_forces_verified "VERIFICATION FAILED\nVERIFICATION SUCCESSFUL" "a.clar"
    "deposit" (by decide)

/-- C3: the concrete counterexample block of the spec yields exactly one
failure record with function `deposit`, line 17, title `assertion` and the
`try!` line as failing code. -/
theorem counterexample_block_parsed_concrete :
    parseFailingFunctions
        "[Counterexample]\nState 3 file sample.clar line 17 function deposit thread 0\nViolated property:\n\nassertion\n\ntry! (stx-transfer? amount tx-sender (as-contract tx-sender))" =
      [{ functionName := "deposit", lineNumber := 17, title := "assertion",
         failingCode := "try! (stx-transfer? amount tx-sender (as-contract tx-sender))" }] := by
  decide

/-- C7 counterexample: the `State ...` annotation of a closed counterexample
block is reused by a later block containing no `State` line; the second
record carries `f1` and line 5 rather than `unknown_function` and `-1`. -/
theorem stale_annotation_across_blocks :
    parseFailingFunctions
        "[Counterexample]\nState 1 file a.clar line 5 function f1 thread 0\nViolated property:\nt1\nc1\n[Counterexample]\nViolated property:\nt2\nc2" =
      [{ functionName := "f1", lineNumber := 5, title := "t1", failingCode := "c1" },
       { functionName := "f1", lineNumber := 5, title := "t2", failingCode := "c2" }] := by
  decide

/-- C7 (amended): the `j`-th emitted failure record carries the function
name and line number of the most recent
`State ... line L function G thread ...` annotation processed before the
`j`-th emission (later annotations overwrite earlier ones) — the current
annotation persists across counterexample blocks and is never reset when a
block closes, so the most recent annotation may stem from an earlier,
already-closed block when the current block has no `State` line; when no
`State` line has been processed before the trigger the record carries
`unknown_function` and `-1`. Every processed annotation is read off an
actual `State` line of the output. -/
theorem record_annotation_most_recent (out : String) (j : Nat) (r : FailureDetails)
    (hr : (parseFailingFunctions out)[j]? = some r) :
    ((lastNoteBeforeEmit (parseTrace out) j none = none ∧
        r.functionName = "unknown_function" ∧ r.lineNumber = -1) ∨
      ∃ n g, lastNoteBeforeEmit (parseTrace out) j none = some (n, g) ∧
        r.functionName = String.mk g ∧ r.lineNumber = (n : Int)) ∧
    ∀ n g, ParseEvent.note n g ∈ parseTrace out →
      ∃ l ∈ splitLines out.data, matchStateLine (trimChars l) = some (n, g) := by
  constructor
  · have hP : parseFailingFunctions out = annotatedRecords (parseTrace out) none := by
      have h := parseLoopFuel_eq_annotated ((splitLines out.data).length + 1)
        (splitLines out.data) false none
      simpa [parseTrace, Option.map] using h
    rw [hP] at hr
    exact annotatedRecords_nth (parseTrace out) none j r hr
  · intro n g hng
    exact parseTraceFuel_note_from_line ((splitLines out.data).length + 1)
      (splitLines out.data) false n g hng

/-- C7 witness: the amended statement applied to the second record of the
two-block output, whose second block contains no `State` line. -/
theorem record_annotation_most_recent_witness :
    (lastNoteBeforeEmit
        (parseTrace "[Counterexample]\nState 1 file a.clar line 5 function f1 thread 0\nViolated property:\nt1\nc1\n[Counterexample]\nViolated property:\nt2\nc2")
        1 none = none ∧
      ({ functionName := "f1", lineNumber := 5, title := "t2",
         failingCode := "c2" } : FailureDetails).functionName = "unknown_function" ∧
      ({ functionName := "f1", lineNumber := 5, title := "t2",
         failingCode := "c2" } : FailureDetails).lineNumber = -1) ∨
    ∃ n g, lastNoteBeforeEmit
        (parseTrace "[Counterexample]\nState 1 file a.clar line 5 function f1 thread 0\nViolated property:\nt1\nc1\n[Counterexample]\nViolated property:\nt2\nc2")
        1 none = some (n, g) ∧
      ({ functionName := "f1", lineNumber := 5, title := "t2",
         failingCode := "c2" } : FailureDetails).functionName = String.mk g ∧
      ({ functionName := "f1", lineNumber := 5, title := "t2",
         failingCode := "c2" } : FailureDetails).lineNumber = (n : Int) :=
  (record_annotation_most_recent
    "[Counterexample]\nState 1 file a.clar line 5 function f1 thread 0\nViolated property:\nt1\nc1\n[Counterexample]\nViolated property:\nt2\nc2"
    1 { functionName := "f1", lineNumber := 5, title := "t2", failingCode := "c2" }
    (by decide)).1

/-- C8: the parser emits at most one record per `[Counterexample]` marker
line, and emits nothing when the output has no marker line at all (a
`Violated property:` line outside an open block produces no record). -/
theorem at_most_one_record_per_marker (out : String) :
    (parseFailingFunctions out).length ≤ countMarkers (splitLines out.data) ∧
    (countMarkers (splitLines out.data) = 0 → parseFailingFunctions out = []) := by
  have hP : parseFailingFunctions out =
      parseLoopFuel ((splitLines out.data).length + 1) (splitLines out.data)
        false none none := rfl
  have h := parseLoopFuel_length_le ((splitLines out.data).length + 1)
    (splitLines out.data) false none none
  simp only [Bool.false_eq_true, if_false, ite_false, Nat.add_zero] at h
  rw [← hP] at h
  refine ⟨h, fun h0 => ?_⟩
  rw [h0] at h
  exact List.length_eq_zero.mp (Nat.le_zero.mp h)

/-- C8 witness: a markerless output with a `Violated property:` line yields
no record. -/
theorem at_most_one_record_per_marker_witness :
    (parseFailingFunctions "Violated property:\nassertion\ncode").length ≤
      countMarkers (splitLines ("Violated property:\nassertion\ncode" : String).data) ∧
    parseFailingFunctions "Violated property:\nassertion\ncode" = [] :=
  ⟨(at_most_one_record_per_marker "Violated property:\nassertion\ncode").1,
    (at_most_one_record_per_marker "Violated property:\nassertion\ncode").2 (by decide)⟩

/-- C10: a `Violated property:` trigger followed only by blank lines up to
the end of the output still emits one record, with title
`unknown-property` and failing code `unknown-failing-code`. -/
theorem violated_at_eof_still_emits (out : String) (v : List Char) (bs : List (List Char))
    (hsplit : splitLines out.data = "[Counterexample]".data :: v :: bs)
    (hv : List.isPrefixOf "Violated property:".data (trimChars v) = true)
    (hstate : matchStateLine (trimChars v) = none)
    (hbs : ∀ b ∈ bs, trimChars b = []) :
    parseFailingFunctions out =
      [{ functionName := "unknown_function", lineNumber := -1,
         title := "unknown-property", failingCode := "unknown-failing-code" }] := by
  have hP : parseFailingFunctions out =
      parseLoopFuel ((splitLines out.data).length + 1) (splitLines out.data)
        false none none := rfl
  rw [hP, hsplit]
  simp only [List.length_cons]
  rw [parseLoopFuel_marker_step _ _ _ _ _ _ (by decide)]
  rw [parseLoopFuel_violated_blank _ _ _ _ _ hv hstate hbs]
  simp [Option.getD]

/-- C10 witness: a marker, a trigger, one whitespace-only line and one empty
line produce exactly the default record. -/
theorem violated_at_eof_still_emits_witness :
    parseFailingFunctions "[Counterexample]\nViolated property:\n \n" =
      [{ functionName := "unknown_function", lineNumber := -1,
         title := "unknown-property", failingCode := "unknown-failing-code" }] :=
  violated_at_eof_still_emits "[Counterexample]\nViolated property:\n \n"
    "Violated property:".data [" ".data, []] (by decide) (by decide) (by decide)
    (by decide)

/-- C1: over name-keyed function sequences (function identity is name-keyed,
so each name occurs once per sequence), the comparator output holds a
`modified` record exactly for the head functions whose name also occurs in
base with different raw content (the record carries the head definition), a
`deleted` record exactly for the base functions whose name is absent from
head (carrying the base definition), an `added` record exactly for the head
functions whose name is absent from base, and no record at all for a name
whose raw content is identical on both sides. -/
theorem compare_changes_name_classification
    (base head : List ClarityFunction)
    (hb : (base.map ClarityFunction.name).Nodup)
    (hh : (head.map ClarityFunction.name).Nodup) :
    (∀ f : ClarityFunction,
        mkChanged f ChangeType.modified ∈ compareAndIdentifyChanges base head ↔
          f ∈ head ∧ ∃ b ∈ base, b.name = f.name ∧ b.content ≠ f.content) ∧
    (∀ f : ClarityFunction,
        mkChanged f ChangeType.deleted ∈ compareAndIdentifyChanges base head ↔
          f ∈ base ∧ ∀ h ∈ head, h.name ≠ f.name) ∧
    (∀ f : ClarityFunction,
        mkChanged f ChangeType.added ∈ compareAndIdentifyChanges base head ↔
          f ∈ head ∧ ∀ b ∈ base, b.name ≠ f.name) ∧
    (∀ b ∈ base, ∀ h ∈ head, b.name = h.name → b.content = h.content →
        ∀ r ∈ compareAndIdentifyChanges base head, r.toClarityFunction.name ≠ b.name) := by
  refine ⟨?_, ?_, ?_, ?_⟩
  · intro f
    rw [mem_compare_iff]
    constructor
    · rintro (⟨b, hbmem, hstep⟩ | ⟨h, hhmem, hstep⟩)
      · rcases baseStep_eq_some_iff.mp hstep with ⟨hfind, heq⟩ | ⟨hf, hfind, hcont, heq⟩
        · exact absurd (congrArg ChangedFunction.changeType heq) (by simp [mkChanged])
        · have hfe : f = hf := congrArg ChangedFunction.toClarityFunction heq
          subst hfe
          have hnm : f.name = b.name := by
            simpa [beq_iff_eq] using List.find?_some hfind
          exact ⟨List.mem_of_find?_eq_some hfind, b, hbmem, hnm.symm, hcont⟩
      · rcases addStep_eq_some_iff.mp hstep with ⟨hfind, heq⟩
        exact absurd (congrArg ChangedFunction.changeType heq) (by simp [mkChanged])
    · rintro ⟨hfhead, b, hbmem, hbname, hbcont⟩
      refine Or.inl ⟨b, hbmem, ?_⟩
      rw [baseStep_eq_some_iff]
      refine Or.inr ⟨f, ?_, hbcont, rfl⟩
      have := find?_name_eq_some_of_nodup hh hfhead
      simpa only [hbname] using this
  · intro f
    rw [mem_compare_iff]
    constructor
    · rintro (⟨b, hbmem, hstep⟩ | ⟨h, hhmem, hstep⟩)
      · rcases baseStep_eq_some_iff.mp hstep with ⟨hfind, heq⟩ | ⟨hf, hfind, hcont, heq⟩
        · have hfe : f = b := congrArg ChangedFunction.toClarityFunction heq
          subst hfe
          refine ⟨hbmem, fun h hh2 hname => ?_⟩
          exact List.find?_eq_none.mp hfind h hh2 (by simp [hname])
        · exact absurd (congrArg ChangedFunction.changeType heq) (by simp [mkChanged])
      · rcases addStep_eq_some_iff.mp hstep with ⟨hfind, heq⟩
        exact absurd (congrArg ChangedFunction.changeType heq) (by simp [mkChanged])
    · rintro ⟨hfbase, hnone⟩
      refine Or.inl ⟨f, hfbase, ?_⟩
      rw [baseStep_eq_some_iff]
      refine Or.inl ⟨?_, rfl⟩
      rw [List.find?_eq_none]
      intro x hx
      simp only [beq_iff_eq]
      exact hnone x hx
  · intro f
    rw [mem_compare_iff]
    constructor
    · rintro (⟨b, hbmem, hstep⟩ | ⟨h, hhmem, hstep⟩)
      · rcases baseStep_eq_some_iff.mp hstep with ⟨hfind, heq⟩ | ⟨hf, hfind, hcont, heq⟩
        · exact absurd (congrArg ChangedFunction.changeType heq) (by simp [mkChanged])
        · exact absurd (congrArg ChangedFunction.changeType heq) (by simp [mkChanged])
      · rcases addStep_eq_some_iff.mp hstep with ⟨hfind, heq⟩
        have hfe : f = h := congrArg ChangedFunction.toClarityFunction heq
        subst hfe
        refine ⟨hhmem, fun b hb2 hname => ?_⟩
        exact List.find?_eq_none.mp hfind b hb2 (by simp [hname])
    · rintro ⟨hfhead, hnone⟩
      refine Or.inr ⟨f, hfhead, ?_⟩
      rw [addStep_eq_some_iff]
      refine ⟨?_, rfl⟩
      rw [List.find?_eq_none]
      intro x hx
      simp only [beq_iff_eq]
      exact hnone x hx
  · rintro b hbmem h hhmem hbh hcontent r hr hrname
    rw [mem_compare_iff] at hr
    rcases hr with ⟨b', hb'mem, hstep⟩ | ⟨h', hh'mem, hstep⟩
    · rcases baseStep_eq_some_iff.mp hstep with ⟨hfind, heq⟩ | ⟨hf, hfind, hcont, heq⟩
      · have hrb : r.toClarityFunction = b' := by rw [heq]; rfl
        have hb'name : b'.name = b.name := by rw [← hrb]; exact hrname
        exact List.find?_eq_none.mp hfind h hhmem (by simp [hbh ▸ hb'name.symm])
      · have hrf : r.toClarityFunction = hf := by rw [heq]; rfl
        have h1 : hf.name = b'.name := by
          simpa [beq_iff_eq] using List.find?_some hfind
        have hb'b : b' = b := by
          refine eq_of_name_eq_of_nodup hb hb'mem hbmem ?_
          rw [← h1, ← hrf]
          exact hrname
        have hfh : hf = h := by
          refine eq_of_name_eq_of_nodup hh (List.mem_of_find?_eq_some hfind) hhmem ?_
          rw [← hrf]
          exact hrname.trans hbh
        exact hcont (by rw [hb'b, hfh]; exact hcontent)
    · rcases addStep_eq_some_iff.mp hstep with ⟨hfind, heq⟩
      have hrh : r.toClarityFunction = h' := by rw [heq]; rfl
      have hh'name : h'.name = b.name := by rw [← hrh]; exact hrname
      exact List.find?_eq_none.mp hfind b hbmem (by simp [hh'name])

/-- C1 witness: a one-function base and head with equal name and different
content produce the `modified` record carrying the head definition. -/
theorem compare_changes_name_classification_witness :
    mkChanged { name := "f", type := "public", startLine := 1, endLine := 1,
                content := "(define-public (f) u2)", file := "a.clar" }
        ChangeType.modified ∈
      compareAndIdentifyChanges
        [{ name := "f", type := "public", startLine := 1, endLine := 1,
           content := "(define-public (f) u1)", file := "a.clar" }]
        [{ name := "f", type := "public", startLine := 1, endLine := 1,
           content := "(define-public (f) u2)", file := "a.clar" }] :=
  ((compare_changes_name_classification
      [{ name := "f", type := "public", startLine := 1, endLine := 1,
         content := "(define-public (f) u1)", file := "a.clar" }]
      [{ name := "f", type := "public", startLine := 1, endLine := 1,
         content := "(define-public (f) u2)", file := "a.clar" }]
      (by decide) (by decide)).1
    { name := "f", type := "public", startLine := 1, endLine := 1,
      content := "(define-public (f) u2)", file := "a.clar" }).mpr (by decide)

/-- C6: in any single comparator run, also with duplicate names in the
inputs, two output records with the same function name always carry the
same change type. -/
theorem change_type_unique_per_name (base head : List ClarityFunction)
    (r₁ r₂ : ChangedFunction)
    (h₁ : r₁ ∈ compareAndIdentifyChanges base head)
    (h₂ : r₂ ∈ compareAndIdentifyChanges base head)
    (hname : r₁.toClarityFunction.name = r₂.toClarityFunction.name) :
    r₁.changeType = r₂.changeType := by
  rw [mem_compare_iff] at h₁ h₂
  have extract : ∀ r : ChangedFunction,
      ((∃ b ∈ base, baseStep head b = some r) ∨ ∃ h ∈ head, addStep base h = some r) →
      ((∃ b ∈ base, b.name = r.toClarityFunction.name) ∧
        ((head.find? (fun f => f.name == r.toClarityFunction.name) = none ∧
            r.changeType = ChangeType.deleted) ∨
          ((∃ hf, head.find? (fun f => f.name == r.toClarityFunction.name) = some hf) ∧
            r.changeType = ChangeType.modified))) ∨
      (base.find? (fun f => f.name == r.toClarityFunction.name) = none ∧
        r.changeType = ChangeType.added) := by
    rintro r (⟨b, hbmem, hstep⟩ | ⟨h, hhmem, hstep⟩)
    · rcases baseStep_eq_some_iff.mp hstep with ⟨hfind, heq⟩ | ⟨hf, hfind, hcont, heq⟩
      · have hrb : r.toClarityFunction = b := by rw [heq]; rfl
        refine Or.inl ⟨⟨b, hbmem, by rw [hrb]⟩, Or.inl ⟨?_, by rw [heq]; rfl⟩⟩
        rw [hrb]
        exact hfind
      · have hrf : r.toClarityFunction = hf := by rw [heq]; rfl
        have h1 : hf.name = b.name := by
          simpa [beq_iff_eq] using List.find?_some hfind
        refine Or.inl ⟨⟨b, hbmem, by rw [hrf, h1]⟩,
          Or.inr ⟨⟨hf, ?_⟩, by rw [heq]; rfl⟩⟩
        rw [hrf, h1]
        exact hfind
    · rcases addStep_eq_some_iff.mp hstep with ⟨hfind, heq⟩
      have hrh : r.toClarityFunction = h := by rw [heq]; rfl
      refine Or.inr ⟨?_, by rw [heq]; rfl⟩
      rw [hrh]
      exact hfind
  rcases extract r₁ h₁ with ⟨⟨b₁, hb₁, hn₁⟩, d₁⟩ | ⟨hfind₁, ht₁⟩
  · rcases extract r₂ h₂ with ⟨⟨b₂, hb₂, hn₂⟩, d₂⟩ | ⟨hfind₂, ht₂⟩
    · rcases d₁ with ⟨hf₁, ht₁⟩ | ⟨⟨hf, hf₁⟩, ht₁⟩ <;>
        rcases d₂ with ⟨hf₂, ht₂⟩ | ⟨⟨hf', hf₂⟩, ht₂⟩
      · rw [ht₁, ht₂]
      · rw [hname] at hf₁
        rw [hf₁] at hf₂
        exact absurd hf₂ (by simp)
      · rw [hname] at hf₁
        rw [hf₂] at hf₁
        exact absurd hf₁ (by simp)
      · rw [ht₁, ht₂]
    · exfalso
      apply List.find?_eq_none.mp hfind₂ b₁ hb₁
      simp only [beq_iff_eq]
      rw [hn₁, hname]
  · rcases extract r₂ h₂ with ⟨⟨b₂, hb₂, hn₂⟩, d₂⟩ | ⟨hfind₂, ht₂⟩
    · exfalso
      apply List.find?_eq_none.mp hfind₁ b₂ hb₂
      simp only [beq_iff_eq]
      rw [hn₂, ← hname]
    · rw [ht₁, ht₂]

/-- C6 witness: the uniqueness statement applied to the single record of a
concrete comparison. -/
theorem change_type_unique_per_name_witness :
    (mkChanged { name := "g", type := "public", startLine := 1, endLine := 1,
                 content := "(define-public (g) u1)", file := "a.clar" }
        ChangeType.added).changeType =
      (mkChanged { name := "g", type := "public", startLine := 1, endLine := 1,
                   content := "(define-public (g) u1)", file := "a.clar" }
        ChangeType.added).changeType :=
  change_type_unique_per_name []
    [{ name := "g", type := "public", startLine := 1, endLine := 1,
       content := "(define-public (g) u1)", file := "a.clar" }]
    (mkChanged { name := "g", type := "public", startLine := 1, endLine := 1,
                 content := "(define-public (g) u1)", file := "a.clar" }
      ChangeType.added)
    (mkChanged { name := "g", type := "public", startLine := 1, endLine := 1,
                 content := "(define-public (g) u1)", file := "a.clar" }
      ChangeType.added)
    (by decide) (by decide) rfl

/-- C4 counterexample: on `(define-public (f) (x` the definition-header
regex matches and the depth counter never returns to zero, yet the parser
output is empty — the unterminated function does not appear in the output. -/
theorem unbalanced_header_function_dropped :
    (searchMatch functionRegexPattern "(define-public (f) (x".data).isSome = true ∧
    parseClarityFunctions "(define-public (f) (x" "a.clar" = [] := by
  decide

/-- C4 (amended): when a matched definition header has opened a function and
the parenthesis-depth counter never returns to zero at any following line
end, the parser raises no exception and consumes the remainder of the file
into the pending function, but that function is discarded: nothing more is
emitted. -/
theorem unbalanced_function_never_emitted (filePath : String) :
    ∀ (lines : List (List Char)) (lineNo : Nat) (pf : PendingFn),
      (∀ k ≤ lines.length, pf.openParens + parenSum (lines.take k) ≠ 0) →
      parseClarityAux filePath lines lineNo (some pf) = [] := by
  intro lines
  induction lines with
  | nil => intro lineNo pf _; rfl
  | cons line rest ih =>
    intro lineNo pf h
    rw [parseClarityAux]
    have hop : ¬ (pf.openParens + parenDelta line = 0) := by
      simpa [parenSum] using h 1 (by simp)
    rw [if_neg hop]
    apply ih
    intro k hk
    have hk1 := h (k + 1) (by simpa using Nat.succ_le_succ hk)
    simp only [List.take_succ_cons, parenSum, List.map_cons, List.sum_cons] at hk1 ⊢
    omega

/-- C4 witness: the amended statement applied to a pending function at depth
2 followed by one line that opens one more parenthesis. -/
theorem unbalanced_function_never_emitted_witness :
    parseClarityAux "a.clar" ["(x".data] 2
      (some { type := "public".data, name := "f".data, startLine := 1,
              openParens := 2, content := "(define-public (f) (x".data }) = [] :=
  unbalanced_function_never_emitted "a.clar" ["(x".data] 2
    { type := "public".data, name := "f".data, startLine := 1,
      openParens := 2, content := "(define-public (f) (x".data } (by decide)

/-- C5: a file with unavailable (absent or empty) base content has every
head function classified `added`; symmetrically, with unavailable head
content every base function is classified `deleted`. -/
theorem missing_revision_all_added_or_deleted (baseContent headContent file : String) :
    (baseContent = "" →
      detectChangesForFile baseContent headContent file =
        (parseClarityFunctions headContent file).map
          (fun f => mkChanged f ChangeType.added) ∧
      ∀ r ∈ detectChangesForFile baseContent headContent file,
        r.changeType = ChangeType.added) ∧
    (headContent = "" →
      detectChangesForFile baseContent headContent file =
        (parseClarityFunctions baseContent file).map
          (fun f => mkChanged f ChangeType.deleted) ∧
      ∀ r ∈ detectChangesForFile baseContent headContent file,
        r.changeType = ChangeType.deleted) := by
  constructor
  · intro hb
    subst hb
    rw [detectChangesForFile, if_pos rfl]
    refine ⟨rfl, ?_⟩
    intro r hr
    rw [List.mem_map] at hr
    rcases hr with ⟨f, _, rfl⟩
    rfl
  · intro hh
    subst hh
    by_cases hbase : baseContent = ""
    · subst hbase
      rw [detectChangesForFile, if_pos rfl, parseClarityFunctions_empty]
      exact ⟨rfl, fun r hr => by simp at hr⟩
    · rw [detectChangesForFile, if_neg hbase, if_pos rfl]
      refine ⟨rfl, ?_⟩
      intro r hr
      rw [List.mem_map] at hr
      rcases hr with ⟨f, _, rfl⟩
      rfl

/-- C5 witness: an absent base revision turns the single head function into
an `added` record. -/
theorem missing_revision_all_added_or_deleted_witness :
    detectChangesForFile "" "(define-public (f) u1)" "a.clar" =
      (parseClarityFunctions "(define-public (f) u1)" "a.clar").map
        (fun f => mkChanged f ChangeType.added) :=
  ((missing_revision_all_added_or_deleted "" "(define-public (f) u1)" "a.clar").1 rfl).1

/-- C9: every failure of a non-verified result yields a SARIF result whose
single location has start line equal to the failure's line number when that
is positive and 1 otherwise; no produced location ever has a start line
below 1. -/
theorem finding_line_positive_coercion (results : List ESBMCResult) :
    (∀ r ∈ results, r.verified = false → ∀ f ∈ r.failures,
        failureToSARIFResult r f ∈ convertToSARIFResults results ∧
        (failureToSARIFResult r f).locations =
          [{ uri := r.clarityFile,
             region := { startLine := if f.lineNumber > 0 then f.lineNumber else 1,
                         startColumn := 1 } }]) ∧
    (∀ s ∈ convertToSARIFResults results, ∀ loc ∈ s.locations,
        1 ≤ loc.region.startLine) := by
  constructor
  · intro r hr hv f hf
    refine ⟨?_, rfl⟩
    rw [convertToSARIFResults, List.mem_flatMap]
    refine ⟨r, hr, ?_⟩
    rw [hv]
    simp only [Bool.false_eq_true, if_false, ite_false]
    exact List.mem_map_of_mem _ hf
  · intro s hs loc hloc
    rw [convertToSARIFResults, List.mem_flatMap] at hs
    rcases hs with ⟨r, hr, hsr⟩
    cases hrv : r.verified with
    | true =>
      rw [hrv] at hsr
      simp at hsr
    | false =>
      rw [hrv] at hsr
      simp only [Bool.false_eq_true, if_false, ite_false, List.mem_map] at hsr
      rcases hsr with ⟨f, hf, rfl⟩
      simp only [failureToSARIFResult, List.mem_singleton] at hloc
      subst hloc
      dsimp only
      split_ifs with h
      · omega
      · omega

/-- C9 witness: a failure with line number `-1` in a non-verified result
produces a SARIF location with start line 1. -/
theorem finding_line_positive_coercion_witness :
    failureToSARIFResult
        { verified := false,
          failures := [{ functionName := "f", lineNumber := -1, title := "assertion",
                         failingCode := "c" }],
          rawOutput := "", clarityFile := "a.clar", functionName := "f" }
        { functionName := "f", lineNumber := -1, title := "assertion",
          failingCode := "c" } ∈
      convertToSARIFResults
        [{ verified := false,
           failures := [{ functionName := "f", lineNumber := -1, title := "assertion",
                          failingCode := "c" }],
           rawOutput := "", clarityFile := "a.clar", functionName := "f" }] ∧
    (failureToSARIFResult
        { verified := false,
          failures := [{ functionName := "f", lineNumber := -1, title := "assertion",
                         failingCode := "c" }],
          rawOutput := "", clarityFile := "a.clar", functionName := "f" }
        { functionName := "f", lineNumber := -1, title := "assertion",
          failingCode := "c" }).locations =
      [{ uri := "a.clar", region := { startLine := 1, startColumn := 1 } }] := by
  have h := (finding_line_positive_coercion
      [{ verified := false,
         failures := [{ functionName := "f", lineNumber := -1, title := "assertion",
                        failingCode := "c" }],
         rawOutput := "", clarityFile := "a.clar", functionName := "f" }]).1
    { verified := false,
      failures := [{ functionName := "f", lineNumber := -1, title := "assertion",
                     failingCode := "c" }],
      rawOutput := "", clarityFile := "a.clar", functionName := "f" }
    (by decide) rfl
    { functionName := "f", lineNumber := -1, title := "assertion", failingCode := "c" }
    (by decide)
  exact ⟨h.1, h.2.trans (by decide)⟩

end Clara
